import Mathlib

/-!
Formal model of the parameterized quantum-operator data model of pyGSTi, as
documented by the repository's tutorial notebooks (`Operators.ipynb`,
`ExplicitModel.ipynb`, `StateSpaceLabels.ipynb`) and its design specification.
The library implementation itself is not part of the corpus, so each component
is modelled from the specification's description of it; the notebooks' recorded
cell outputs serve as concrete test points.

Conventions of the embedding:
* parameter vectors are `List ℚ` (exact rationals standing for the float
  parameter vectors) except for the Lindblad error generator, whose positivity
  property is about arbitrary real parameter vectors and is modelled over
  `ℝ`/`ℂ`;
* a dense `dim × dim` operator matrix is stored as its row-major flattening,
  matching the flattened NumPy buffer the library exposes;
* in-place mutation (`from_vector`, `set_matrix`) is modelled by explicit state
  passing, with fallible calls returning `Except Err`.
-/

namespace PyGSTi

open scoped ComplexOrder

/-- Modelled from the spec: the error kinds of the design's error-handling
section (the library surfaces them as `ValueError`/`AssertionError`). -/
inductive Err where
  | DimensionMismatch
  | InvalidOperation
  | NotDenseRepresentable
  | NonPositiveErrorGenerator
  deriving DecidableEq, Repr

/-- The fixed first row `[1, 0, ..., 0]` that a trace-preserving operator
matrix must have (`d` entries in total). -/
def unitFirstRow (d : Nat) : List ℚ :=
  1 :: List.replicate (d - 1) 0

/-- Modelled from the spec: the dense operator family (`StaticDenseOp`,
`FullDenseOp`, `TPDenseOp`) plus the subsystem-embedding wrapper
(`EmbeddedOp`).  A dense operator holds its `dim × dim` matrix as the
row-major flat list `mx`; an embedded operator holds the full state-space
description (ordered factor labels with their superoperator dimensions),
the target factor labels, and the wrapped operator. -/
inductive Op where
  | static (dim : Nat) (mx : List ℚ)
  | full (dim : Nat) (mx : List ℚ)
  | tp (dim : Nat) (mx : List ℚ)
  | embedded (stateSpace : List (String × Nat)) (targets : List String) (sub : Op)
  deriving DecidableEq, Repr

/-- Ambient dimension: the stored `dim` for dense operators; for an embedded
operator, the product of all state-space factor dimensions. -/
def Op.dim : Op → Nat
  | .static d _ => d
  | .full d _ => d
  | .tp d _ => d
  | .embedded ss _ _ => (ss.map Prod.snd).prod

/-- Modelled from the spec: parameter counts — static: 0; full: `dim*dim`;
TP: `dim*(dim-1)` (the first row is fixed); embedded: the wrapped
operator's count (embedding adds no parameters). -/
def Op.num_params : Op → Nat
  | .static _ _ => 0
  | .full d _ => d * d
  | .tp d _ => d * (d - 1)
  | .embedded _ _ sub => sub.num_params

/-- Modelled from the spec: `to_vector` — static: empty; full: the flattened
matrix; TP: the flattened matrix without its fixed first row; embedded:
pass-through to the wrapped operator. -/
def Op.to_vector : Op → List ℚ
  | .static _ _ => []
  | .full _ mx => mx
  | .tp d mx => mx.drop d
  | .embedded _ _ sub => sub.to_vector

/-- Modelled from the spec: `from_vector` — a static operator accepts only the
empty vector (a no-op) and fails with `InvalidOperation` otherwise; full/TP
operators overwrite their free elements after checking the vector length
against `num_params` (`DimensionMismatch` on disagreement; the TP first row is
left untouched); embedded operators pass the vector through verbatim to the
wrapped operator. -/
def Op.from_vector : Op → List ℚ → Except Err Op
  | .static d mx, v =>
      if v.length = 0 then .ok (.static d mx) else .error .InvalidOperation
  | .full d _, v =>
      if v.length = d * d then .ok (.full d v) else .error .DimensionMismatch
  | .tp d mx, v =>
      if v.length = d * (d - 1) then .ok (.tp d (mx.take d ++ v))
      else .error .DimensionMismatch
  | .embedded ss ts sub, v =>
      (sub.from_vector v).map (Op.embedded ss ts)

/-- Dense materialization.  Dense variants return their stored flat matrix;
the interleaved Kronecker materialization of an embedded operator is outside
the modelled fragment. -/
def Op.todense : Op → Option (List ℚ)
  | .static _ mx => some mx
  | .full _ mx => some mx
  | .tp _ mx => some mx
  | .embedded _ _ _ => none

/-- Structural well-formedness of a stored operator: the flat matrix has
`dim * dim` entries, a TP matrix has the fixed first row, and an embedded
operator wraps a well-formed operator whose dimension matches the product of
the target factors' dimensions. -/
def Op.valid : Op → Bool
  | .static d mx => mx.length = d * d
  | .full d mx => mx.length = d * d
  | .tp d mx => mx.length = d * d && mx.take d = unitFirstRow d
  | .embedded ss ts sub =>
      sub.valid && sub.dim = ((ss.filter (fun p => p.fst ∈ ts)).map Prod.snd).prod

/-- Does setting this operator's parameters bottom out at a static object?
(`from_vector` delegates through embeddings, so an embedded static operator
rejects nonempty vectors the same way a bare static one does.) -/
def Op.isStaticCore : Op → Bool
  | .static _ _ => true
  | .embedded _ _ sub => sub.isStaticCore
  | _ => false

/-- Is this one of the three dense variants (not an embedding wrapper)? -/
def Op.isDense : Op → Bool
  | .static _ _ => true
  | .full _ _ => true
  | .tp _ _ => true
  | .embedded _ _ _ => false

/-- Modelled from the spec: constructing a `TPDenseOp` from a dense matrix
fails with `InvalidOperation` when the matrix's first row is not
`[1, 0, ..., 0]`. -/
def TPDenseOp.build (d : Nat) (mx : List ℚ) : Except Err Op :=
  if mx.take d = unitFirstRow d then .ok (.tp d mx) else .error .InvalidOperation

/-- Modelled from the spec: in-place update of an existing TP operator from a
dense matrix (the library's `set_matrix` path used by `Model` assignment);
the same fixed-first-row check applies. -/
def TPDenseOp.set_matrix (o : Op) (mx : List ℚ) : Except Err Op :=
  match o with
  | .tp d _ => TPDenseOp.build d mx
  | _ => .error .InvalidOperation

/-- Modelled from the spec: the dense SPAM-vector family (`StaticSPAMVec`,
`FullSPAMVec`, `TPSPAMVec`).  A vector holds its `dim` entries; the TP variant
additionally records the fixed normalization value its first entry must
hold. -/
inductive SpamVec where
  | static (dim : Nat) (vec : List ℚ)
  | full (dim : Nat) (vec : List ℚ)
  | tp (dim : Nat) (fixedFirst : ℚ) (vec : List ℚ)
  deriving DecidableEq, Repr

/-- Parameter counts — static: 0; full: `dim`; TP: `dim - 1`. -/
def SpamVec.num_params : SpamVec → Nat
  | .static _ _ => 0
  | .full d _ => d
  | .tp d _ _ => d - 1

/-- `to_vector` for SPAM vectors (the TP variant's fixed first entry is not a
parameter). -/
def SpamVec.to_vector : SpamVec → List ℚ
  | .static _ _ => []
  | .full _ vec => vec
  | .tp _ _ vec => vec.drop 1

/-- `from_vector` for SPAM vectors, mirroring the operator contract. -/
def SpamVec.from_vector : SpamVec → List ℚ → Except Err SpamVec
  | .static d vec, v =>
      if v.length = 0 then .ok (.static d vec) else .error .InvalidOperation
  | .full d _, v =>
      if v.length = d then .ok (.full d v) else .error .DimensionMismatch
  | .tp d c vec, v =>
      if v.length = d - 1 then .ok (.tp d c (vec.take 1 ++ v))
      else .error .DimensionMismatch

/-- Dense materialization of a SPAM vector (always available). -/
def SpamVec.todense : SpamVec → List ℚ
  | .static _ vec => vec
  | .full _ vec => vec
  | .tp _ _ vec => vec

/-- Structural well-formedness of a stored SPAM vector. -/
def SpamVec.valid : SpamVec → Bool
  | .static d vec => vec.length = d
  | .full d vec => vec.length = d
  | .tp d c vec => vec.length = d && vec.head? = some c

/-- Does this SPAM vector reject parameter setting as a static object? -/
def SpamVec.isStaticCore : SpamVec → Bool
  | .static _ _ => true
  | _ => false

/-- Modelled from the spec: constructing a `TPSPAMVec` fails with
`InvalidOperation` when the vector's first element does not match the required
fixed normalization value `c`. -/
def TPSPAMVec.build (d : Nat) (c : ℚ) (vec : List ℚ) : Except Err SpamVec :=
  if vec.head? = some c then .ok (.tp d c vec) else .error .InvalidOperation

/-- The notebook's `gate_mx` (a Pauli-basis `X(pi/2)` rotation), row-major. -/
def gateMx : List ℚ :=
  [1, 0, 0, 0,
   0, 1, 0, 0,
   0, 0, 0, -1,
   0, 0, 1, 0]

/-- The notebook's `staticOp = StaticDenseOp(gate_mx)`. -/
def staticOp : Op := .static 4 gateMx

/-- The notebook's `fullOp = FullDenseOp(gate_mx)`. -/
def fullOp : Op := .full 4 gateMx

/-- The notebook's `tpOp = TPDenseOp(gate_mx)`. -/
def tpOp : Op := .tp 4 gateMx

/-- Pointwise addition of two equal-length vectors. -/
def vadd (a b : List ℚ) : List ℚ := List.zipWith (· + ·) a b

/-- Pointwise subtraction of two equal-length vectors. -/
def vsub (a b : List ℚ) : List ℚ := List.zipWith (· - ·) a b

/-- Sum of a list of length-`d` vectors (the zero vector when empty). -/
def vecSum (d : Nat) (vs : List (List ℚ)) : List ℚ :=
  vs.foldr vadd (List.replicate d 0)

/-- Split a flat parameter vector into consecutive length-`d` slices, one per
explicit effect, in insertion order. -/
def splitChunks (d : Nat) (v : List ℚ) : List (List ℚ) :=
  (List.range (v.length / d)).map (fun i => (v.drop (i * d)).take d)

/-- Modelled from the spec: a trace-preserving POVM stores the fixed
trace-preserving total vector (the identity element) and its `n-1` explicit
effect vectors (fully parameterized, `dim` parameters each); the final
"complement" effect is never stored. -/
structure TPPOVM where
  dim : Nat
  total : List ℚ
  explicitEffects : List (List ℚ)
  deriving DecidableEq, Repr

/-- Modelled from the spec: the complement effect is computed on every access
as (fixed total vector − sum of the explicit effects); it is never cached. -/
def TPPOVM.complement (p : TPPOVM) : List ℚ :=
  vsub p.total (vecSum p.dim p.explicitEffects)

/-- All effect vectors, the derived complement last. -/
def TPPOVM.effects (p : TPPOVM) : List (List ℚ) :=
  p.explicitEffects ++ [p.complement]

/-- A TP POVM's parameters are the explicit effects' concatenated parameters
(the complement is not independently parameterized). -/
def TPPOVM.num_params (p : TPPOVM) : Nat :=
  p.dim * p.explicitEffects.length

/-- Modelled from the spec: `from_vector` splits the parameter vector among
the explicit effects in insertion order; it never touches the total vector or
any stored complement. -/
def TPPOVM.from_vector (p : TPPOVM) (v : List ℚ) : Except Err TPPOVM :=
  if v.length = p.num_params then
    .ok { p with explicitEffects := splitChunks p.dim v }
  else .error .DimensionMismatch

/-- Modelled from the spec: mutating a stored effect in place (the spec's
"mutating any stored effect" scenario): replace the `i`-th explicit effect. -/
def TPPOVM.setEffect (p : TPPOVM) (i : Nat) (e : List ℚ) : TPPOVM :=
  { p with explicitEffects := p.explicitEffects.set i e }

/-- Modelled from the spec: a `ComposedOp` holds an ordered sequence of factor
operators *by reference* (a factor may be shared between composites), so
factors are represented by identity handles into the owning model's member
table.  Its parameter allocation is deferred to the `Model`: `none` until the
model's `num_params` refresh assigns it. -/
structure ComposedOp where
  factorops : List Nat
  allocatedParams : Option Nat
  deriving DecidableEq, Repr

/-- A freshly built `ComposedOp` is detached from any model and has no
parameter allocation yet. -/
def ComposedOp.make (factors : List Nat) : ComposedOp :=
  { factorops := factors, allocatedParams := none }

/-- Modelled from the spec: before model registration `num_params` reports the
uninitialized sentinel 0; afterwards it reports the allocated count. -/
def ComposedOp.num_params (c : ComposedOp) : Nat :=
  c.allocatedParams.getD 0

/-- Modelled from the spec: the `Model.num_params` refresh walks the model's
contents, deduplicates factors by identity (a factor referenced twice
contributes once) and allocates to the composed operator the sum of the
distinct factors' parameter counts.  `memberNumParams` is the model's
knowledge of each member's parameter count, keyed by identity handle. -/
def Model.refreshComposed (memberNumParams : Nat → Nat) (c : ComposedOp) : ComposedOp :=
  { c with allocatedParams := some ((c.factorops.dedup.map memberNumParams).sum) }

/-- The notebook's member table for `ComposedOp((staticOp, tpOp, fullOp))`:
handles 0, 1, 2 reference the three dense operators built above. -/
def exampleMemberTable : List Op := [staticOp, tpOp, fullOp]

/-- Parameter counts of the example model's members, by identity handle. -/
def exampleMemberParams (h : Nat) : Nat :=
  ((exampleMemberTable.get? h).map Op.num_params).getD 0

/-- The notebook's `composedOp = ComposedOp((staticOp, tpOp, fullOp))`,
before any model registration. -/
def composedOp : ComposedOp := ComposedOp.make [0, 1, 2]

/-- Modelled from the spec: constructing an `EmbeddedOp` checks that the
wrapped operator's dimension equals the product of the target factors'
dimensions, failing with `DimensionMismatch` otherwise. -/
def EmbeddedOp.build (ss : List (String × Nat)) (ts : List String) (sub : Op) :
    Except Err Op :=
  if sub.dim = ((ss.filter (fun p => p.fst ∈ ts)).map Prod.snd).prod then
    .ok (.embedded ss ts sub)
  else .error .DimensionMismatch

/-- The notebook's 3-qubit state space `Q0(2)*Q1(2)*Q2(2)`; each qubit factor
contributes superoperator dimension 4 in the Liouville representation. -/
def threeQubitSpace : List (String × Nat) := [("Q0", 4), ("Q1", 4), ("Q2", 4)]

/-- The notebook's `embeddedOp = EmbeddedOp(['Q0','Q1','Q2'], ['Q1'], fullOp)`. -/
def embeddedOp : Op := .embedded threeQubitSpace ["Q1"] fullOp

/-- Modelled from the spec: a `LindbladErrorgen` in the default configuration
(`nonham_mode = "all"`, `param_mode = "cptp"`).  `basisSize` is the number `n`
of non-identity basis elements (`dim - 1`); the real parameter vector holds
the `n` Hamiltonian coefficients followed by the `n*n` real numbers encoding
the lower-triangular Cholesky-like factor `M` of the non-Hamiltonian
coefficient matrix `η = M * Mᴴ`. -/
structure LindbladErrorgen where
  basisSize : Nat
  params : List ℝ

/-- Hamiltonian parameter count: one per non-identity basis element. -/
def LindbladErrorgen.numHamParams (e : LindbladErrorgen) : Nat := e.basisSize

/-- Non-Hamiltonian parameter count in cptp/all mode: the `n*n` real and
imaginary parts of the lower-triangular factor `M`. -/
def LindbladErrorgen.numNonhamParams (e : LindbladErrorgen) : Nat :=
  e.basisSize * e.basisSize

/-- Total parameter count. -/
def LindbladErrorgen.num_params (e : LindbladErrorgen) : Nat :=
  e.numHamParams + e.numNonhamParams

/-- `to_vector`: the raw parameter vector. -/
def LindbladErrorgen.to_vector (e : LindbladErrorgen) : List ℝ := e.params

/-- `from_vector`: replace the parameter vector after the length check. -/
def LindbladErrorgen.from_vector (e : LindbladErrorgen) (v : List ℝ) :
    Except Err LindbladErrorgen :=
  if v.length = e.num_params then .ok { basisSize := e.basisSize, params := v }
  else .error .DimensionMismatch

/-- Modelled from the spec: the lower-triangular Cholesky-like factor `M`
encoded by the non-Hamiltonian block of the parameter vector.  The `n*n`
slots after the `n` Hamiltonian parameters are read as an `n × n` grid: slot
`(i, j)` with `j < i` holds the real part of `M i j`, the mirror slot
`(j, i)` holds its imaginary part, and slot `(i, i)` holds the (real)
diagonal entry `M i i`; entries above the diagonal are zero. -/
def LindbladErrorgen.cholFactor (e : LindbladErrorgen) :
    Matrix (Fin e.basisSize) (Fin e.basisSize) ℂ :=
  let n := e.basisSize
  fun i j =>
    if (j : Nat) < (i : Nat) then
      { re := e.params.getD (n + (i : Nat) * n + (j : Nat)) 0,
        im := e.params.getD (n + (j : Nat) * n + (i : Nat)) 0 }
    else if i = j then
      ((e.params.getD (n + (i : Nat) * n + (i : Nat)) 0 : ℝ) : ℂ)
    else 0

/-- The non-Hamiltonian coefficient matrix `η = M * Mᴴ` determined by the
current parameters (second-moment part of the generator). -/
noncomputable def LindbladErrorgen.eta (e : LindbladErrorgen) :
    Matrix (Fin e.basisSize) (Fin e.basisSize) ℂ :=
  e.cholFactor * e.cholFactor.conjTranspose

/-- Modelled from the spec: a `LindbladOp` composes a base operator `U₀` (a
fixed reference point, typically static) with the exponential of a contained
`LindbladErrorgen`; all parameters live in the error generator. -/
structure LindbladOp where
  base : Op
  errorgen : LindbladErrorgen

/-- `num_params` delegates entirely to the contained error generator. -/
def LindbladOp.num_params (L : LindbladOp) : Nat := L.errorgen.num_params

/-- `to_vector` delegates entirely to the contained error generator. -/
def LindbladOp.to_vector (L : LindbladOp) : List ℝ := L.errorgen.to_vector

/-- `from_vector` delegates entirely to the contained error generator; the
base operator is untouched. -/
def LindbladOp.from_vector (L : LindbladOp) (v : List ℝ) : Except Err LindbladOp :=
  (L.errorgen.from_vector v).map (fun e => { base := L.base, errorgen := e })

/-- Modelled from the spec: `LindbladOp.from_operation_matrix` splits a dense
`d × d` operation matrix into a static base `U₀` and an error generator over
the `d - 1` non-identity basis elements in the default cptp/all
configuration.  The matrix-logarithm decomposition itself is an external
numerical routine; for the notebook's unitary `gate_mx` all error
coefficients (hence all parameters) are zero, which is what the constructed
generator carries.  The parameter *count* is determined by the configuration
alone. -/
def LindbladOp.from_operation_matrix (d : Nat) (mx : List ℚ) : LindbladOp :=
  { base := .static d mx,
    errorgen :=
      { basisSize := d - 1,
        params := List.replicate ((d - 1) + (d - 1) * (d - 1)) 0 } }

/-- The notebook's `errorgen = LindbladErrorgen(dim=4, Ltermdict={('H','X'):
0.1, ('S','X','X'): 0.1}, basisdict={'X': sigmax})`: a single non-identity
basis element, Hamiltonian coefficient `0.1` and cptp parameter `√0.1` for
the 1×1 Cholesky factor of `η = [[0.1]]`. -/
noncomputable def errorgen : LindbladErrorgen :=
  { basisSize := 1, params := [0.1, Real.sqrt 0.1] }

/-- The notebook's `cptpOp2 = LindbladOp(staticOp, errorgen)`. -/
noncomputable def cptpOp2 : LindbladOp :=
  { base := staticOp, errorgen := errorgen }

/-- A basis label as the library uses them: a string (user-facing) or an
integer (canonical index). -/
inductive PyLabel where
  | str (s : String)
  | int (n : Nat)
  deriving DecidableEq, Repr

/-- Modelled from the spec: an error-term descriptor — `("H", b)` for a
Hamiltonian term, `("S", b1, b2)` for a non-Hamiltonian/stochastic term,
`("A", b)` for an affine term, each referencing basis labels. -/
inductive ErrTermKey where
  | H (b : PyLabel)
  | S (b1 b2 : PyLabel)
  | A (b : PyLabel)
  deriving DecidableEq, Repr

/-- The basis labels referenced by a descriptor, in order. -/
def ErrTermKey.basisLabels : ErrTermKey → List PyLabel
  | .H b => [b]
  | .S b1 b2 => [b1, b2]
  | .A b => [b]

/-- Rename the basis labels of a descriptor. -/
def ErrTermKey.mapLabels (f : PyLabel → PyLabel) : ErrTermKey → ErrTermKey
  | .H b => .H (f b)
  | .S b1 b2 => .S (f b1) (f b2)
  | .A b => .A (f b)

/-- First-occurrence deduplication (keeps the order in which labels first
appear, unlike `List.dedup` which keeps last occurrences). -/
def firstDedup : List PyLabel → List PyLabel
  | [] => []
  | a :: rest => a :: (firstDedup rest).filter (· ≠ a)

/-- The canonical basis-label order of a coefficient dictionary: the labels
in order of first appearance among its descriptors. -/
def canonicalBasisLabels (t : List (ErrTermKey × ℂ)) : List PyLabel :=
  firstDedup ((t.map Prod.fst).flatMap ErrTermKey.basisLabels)

/-- Canonical renaming: replace a label by its integer index in the canonical
order. -/
def relabel (canon : List PyLabel) (l : PyLabel) : PyLabel :=
  .int (canon.indexOf l)

/-- Modelled from the spec: the coefficient-dictionary view of a Lindblad
error generator — the error-term-descriptor → coefficient mapping together
with the basis-label → basis-matrix mapping (`μ` is the basis-matrix type;
the generator stores the matrices without modification).  Hamiltonian
coefficients are real, non-Hamiltonian ones complex; both are stored as
complex numbers as the library does. -/
structure LindbladCoeffs (μ : Type) where
  terms : List (ErrTermKey × ℂ)
  basis : List (PyLabel × μ)

/-- Modelled from the spec: constructing a Lindblad error generator from an
`Ltermdict`/`basisdict` pair.  The generator canonicalizes its basis: every
basis label is replaced by its integer index in order of first appearance in
the coefficient dictionary, and the basis dictionary is re-keyed by those
indices (labels never referenced by a descriptor are dropped). -/
def constructFromCoeffDict {μ : Type} (t : List (ErrTermKey × ℂ))
    (b : List (PyLabel × μ)) : LindbladCoeffs μ :=
  let canon := canonicalBasisLabels t
  { terms := t.map (fun p => (p.fst.mapLabels (relabel canon), p.snd)),
    basis := canon.filterMap (fun l =>
      ((b.find? (fun q => q.fst = l)).map Prod.snd).map
        (fun m => (relabel canon l, m))) }

/-- Modelled from the spec: `get_coeffs` recovers the descriptor → coefficient
mapping and the basis-index → matrix mapping held by the generator. -/
def getCoeffs {μ : Type} (s : LindbladCoeffs μ) :
    List (ErrTermKey × ℂ) × List (PyLabel × μ) :=
  (s.terms, s.basis)

/-- The notebook's `sigmax = X/√2`, the normalized Pauli-X basis matrix. -/
noncomputable def sigmax : Matrix (Fin 2) (Fin 2) ℝ :=
  fun i j => if i = j then 0 else Real.sqrt 2⁻¹

/-- The notebook's `Ltermdict = {('H','X'): 0.1, ('S','X','X'): 0.1}`. -/
noncomputable def exampleLtermdict : List (ErrTermKey × ℂ) :=
  [(.H (.str "X"), 0.1), (.S (.str "X") (.str "X"), 0.1)]

/-- The notebook's `basisdict = {'X': sigmax}`. -/
noncomputable def exampleBasisdict : List (PyLabel × Matrix (Fin 2) (Fin 2) ℝ) :=
  [(.str "X", sigmax)]

/-- The coefficient view of the notebook's
`LindbladErrorgen(dim=4, Ltermdict, basisdict)`. -/
noncomputable def exampleCoeffs : LindbladCoeffs (Matrix (Fin 2) (Fin 2) ℝ) :=
  constructFromCoeffDict exampleLtermdict exampleBasisdict

/-- The `ExplicitModel` notebook's `invalid_TP_array`, whose first row is not
`[1, 0, 0, 0]`. -/
def invalidTPArray : List ℚ :=
  [2, 1, 3, 0,
   0, 1/2, 0, 0,
   0, 0, 1/2, 0,
   0, 0, 0, 1/2]

/-- C3: a `ComposedOp` of three dense factors with parameter counts 0, 12 and
16 reports `num_params() = 0` before model registration; after the model's
`num_params` refresh it reports 28, the sum of the *distinct* factors'
parameter counts — a factor referenced twice (here the handle 2, `fullOp`)
still contributes only once. -/
theorem composed_op_num_params_allocation :
    composedOp.num_params = 0 ∧
    (Model.refreshComposed exampleMemberParams composedOp).num_params = 28 ∧
    (Model.refreshComposed exampleMemberParams (ComposedOp.make [2, 1, 2])).num_params = 28 := by
  decide

/-- C6: an `EmbeddedOp` passes `num_params`, `to_vector` and `from_vector`
through verbatim to the wrapped operator and its ambient dimension is the
product of all state-space factor dimensions; for the notebook's embedding of
the `dim = 4` `fullOp` into the 3-unit `Q0*Q1*Q2` space, `dim = 64` and
`num_params = 16`, and the constructor's dimension check accepts it. -/
theorem embedded_op_passthrough :
    (∀ (ss : List (String × Nat)) (ts : List String) (sub : Op) (v : List ℚ),
      (Op.embedded ss ts sub).num_params = sub.num_params ∧
      (Op.embedded ss ts sub).to_vector = sub.to_vector ∧
      (Op.embedded ss ts sub).from_vector v = (sub.from_vector v).map (Op.embedded ss ts) ∧
      (Op.embedded ss ts sub).dim = (ss.map Prod.snd).prod) ∧
    embeddedOp.dim = 64 ∧
    embeddedOp.num_params = 16 ∧
    EmbeddedOp.build threeQubitSpace ["Q1"] fullOp = .ok embeddedOp :=
  ⟨fun _ _ _ _ => ⟨rfl, rfl, rfl, rfl⟩, by decide, by decide, rfl⟩

/-- C9: a `LindbladOp` delegates `num_params`, `to_vector` and `from_vector`
entirely to the contained error generator (the base operator contributes no
parameters and is never touched); the notebook's `cptpOp2`, built from the
static base `staticOp` (0 parameters) and the 2-coefficient error generator,
reports `num_params = 2`. -/
theorem lindblad_op_delegates_to_errorgen :
    (∀ (b : Op) (eg : LindbladErrorgen) (v : List ℝ),
      (LindbladOp.mk b eg).num_params = eg.num_params ∧
      (LindbladOp.mk b eg).to_vector = eg.to_vector ∧
      (LindbladOp.mk b eg).from_vector v =
        (eg.from_vector v).map (fun e => LindbladOp.mk b e) ∧
      (LindbladOp.mk b eg).base = b) ∧
    cptpOp2.num_params = 2 ∧
    cptpOp2.base = staticOp ∧
    staticOp.num_params = 0 :=
  ⟨fun _ _ _ => ⟨rfl, rfl, rfl, rfl⟩, rfl, rfl, rfl⟩

/-- C10: a Lindblad operator constructed from a `4 × 4` operation matrix in
the default configuration (`nonham_mode = "all"`, `param_mode = "cptp"`) has
exactly 12 parameters: 3 Hamiltonian plus 9 non-Hamiltonian (the real and
imaginary parts of the lower-triangular `3 × 3` Cholesky-like factor), and in
general the parameter count is the sum of those two contributions. -/
theorem lindblad_from_operation_matrix_param_count :
    (LindbladOp.from_operation_matrix 4 gateMx).num_params = 12 ∧
    (LindbladOp.from_operation_matrix 4 gateMx).errorgen.numHamParams = 3 ∧
    (LindbladOp.from_operation_matrix 4 gateMx).errorgen.numNonhamParams = 9 ∧
    ∀ e : LindbladErrorgen, e.num_params = e.numHamParams + e.numNonhamParams :=
  ⟨rfl, rfl, rfl, fun _ => rfl⟩

/-- Adding the all-zero vector of matching length changes nothing. -/
theorem zipWith_add_replicate_zero (a : List ℚ) :
    List.zipWith (· + ·) a (List.replicate a.length 0) = a := by
  induction a with
  | nil => rfl
  | cons x xs ih => simp [List.replicate_succ, ih]

/-- Pointwise `a + (b - a) = b` for equal-length vectors. -/
theorem zipWith_add_sub_cancel (a b : List ℚ) (h : a.length = b.length) :
    List.zipWith (· + ·) a (List.zipWith (· - ·) b a) = b := by
  induction a generalizing b with
  | nil =>
    cases b with
    | nil => rfl
    | cons y ys => simp at h
  | cons x xs ih =>
    cases b with
    | nil => simp at h
    | cons y ys =>
      rw [List.zipWith_cons_cons, List.zipWith_cons_cons]
      congr 1
      · ring
      · exact ih ys (by simpa using h)

/-- The spec's TP-POVM invariant at a fixed state: with one explicit effect
the two effect vectors (the explicit one and the derived complement) sum
pointwise to the fixed total vector. -/
theorem tppovm_pair_sum (total e : List ℚ) (ht : total.length = 4)
    (he : e.length = 4) :
    vecSum 4 (TPPOVM.mk 4 total [e]).effects = total := by
  have h1 : vecSum 4 [e] = e := by
    show vadd e (List.replicate 4 0) = e
    rw [← he]
    exact zipWith_add_replicate_zero e
  have hcomp : (TPPOVM.mk 4 total [e]).complement = vsub total e := by
    simp [TPPOVM.complement, h1]
  have hclen : (vsub total e).length = 4 := by
    simp [vsub, ht, he]
  show vadd e (vadd (TPPOVM.mk 4 total [e]).complement (List.replicate 4 0)) = total
  rw [hcomp]
  have h2 : vadd (vsub total e) (List.replicate 4 0) = vsub total e := by
    show List.zipWith (· + ·) (vsub total e) (List.replicate 4 0) = vsub total e
    rw [← hclen]
    exact zipWith_add_replicate_zero (vsub total e)
  rw [h2]
  exact zipWith_add_sub_cancel e total (he.trans ht.symm)

/-- C4: for a 1-unit (dim 4) trace-preserving POVM with 2 outcomes, the two
effect vectors sum exactly to the fixed trace-preserving total vector — at
the current state (hence after any mutation of the stored effect, since the
complement is recomputed on every access, never cached), after an explicit
`setEffect` mutation, and after every successful `from_vector` call (which
also leaves the total vector untouched). -/
theorem tppovm_effects_sum_to_total :
    ∀ (total e v e2 : List ℚ), total.length = 4 → e.length = 4 → e2.length = 4 →
      vecSum 4 (TPPOVM.mk 4 total [e]).effects = total ∧
      vecSum 4 ((TPPOVM.mk 4 total [e]).setEffect 0 e2).effects = total ∧
      (∀ p', (TPPOVM.mk 4 total [e]).from_vector v = .ok p' →
        vecSum 4 p'.effects = p'.total ∧ p'.total = total) := by
  intro total e v e2 ht he he2
  refine ⟨tppovm_pair_sum total e ht he, ?_, ?_⟩
  · show vecSum 4 (TPPOVM.mk 4 total [e2]).effects = total
    exact tppovm_pair_sum total e2 ht he2
  · intro p' hp'
    rw [TPPOVM.from_vector] at hp'
    by_cases hv : v.length = (TPPOVM.mk 4 total [e]).num_params
    · rw [if_pos hv] at hp'
      have hv4 : v.length = 4 := hv
      have hsplit : splitChunks 4 v = [v] := by
        rw [splitChunks, hv4]
        have h44 : (4 : Nat) / 4 = 1 := by decide
        have hr : List.range 1 = [0] := by decide
        rw [h44, hr, List.map_cons, List.map_nil]
        simp only [Nat.zero_mul, List.drop_zero]
        rw [← hv4, List.take_length]
      cases hp'
      constructor
      · show vecSum 4 (TPPOVM.mk 4 total (splitChunks 4 v)).effects = total
        rw [hsplit]
        exact tppovm_pair_sum total v ht hv4
      · rfl
    · rw [if_neg hv] at hp'
      cases hp'

/-- Evaluation of C4 at concrete vectors. -/
theorem tppovm_effects_sum_to_total_witness :
    ([2, 0, 0, 0] : List ℚ).length = 4 ∧
    ([1, 1, 0, 0] : List ℚ).length = 4 ∧
    ([0, 1, 2, 3] : List ℚ).length = 4 ∧
    vecSum 4 (TPPOVM.mk 4 [2, 0, 0, 0] [[1, 1, 0, 0]]).effects = [2, 0, 0, 0] ∧
    vecSum 4 ((TPPOVM.mk 4 [2, 0, 0, 0] [[1, 1, 0, 0]]).setEffect 0 [0, 1, 2, 3]).effects
      = [2, 0, 0, 0] := by
  have h := tppovm_effects_sum_to_total [2, 0, 0, 0] [1, 1, 0, 0] [5, 5, 5, 5]
    [0, 1, 2, 3] (by decide) (by decide) (by decide)
  exact ⟨by decide, by decide, by decide, h.1, h.2.1⟩

/-- C2: for every well-formed dense operator (static, full or TP variant) and
every well-formed SPAM vector, `from_vector (to_vector ())` is the identity:
it returns the object unchanged, so `todense()` is unchanged as well. -/
theorem dense_from_vector_roundtrip :
    ∀ (o : Op) (s : SpamVec), o.valid = true → o.isDense = true → s.valid = true →
      o.from_vector o.to_vector = .ok o ∧
      (o.from_vector o.to_vector).map Op.todense = .ok o.todense ∧
      s.from_vector s.to_vector = .ok s ∧
      (s.from_vector s.to_vector).map SpamVec.todense = .ok s.todense := by
  intro o s ho hd hs
  have h1 : o.from_vector o.to_vector = .ok o := by
    cases o with
    | static d mx => rfl
    | full d mx =>
      have hlen : mx.length = d * d := by simpa [Op.valid] using ho
      simp [Op.from_vector, Op.to_vector, hlen]
    | tp d mx =>
      have hv : mx.length = d * d ∧ mx.take d = unitFirstRow d := by
        simpa [Op.valid] using ho
      have hlen : (mx.drop d).length = d * (d - 1) := by
        rw [List.length_drop, hv.1]
        cases d with
        | zero => rfl
        | succ n => simp [Nat.succ_sub_one, Nat.mul_succ]
      simp [Op.from_vector, Op.to_vector, hlen, List.take_append_drop]
    | embedded ss ts sub => simp [Op.isDense] at hd
  have h2 : s.from_vector s.to_vector = .ok s := by
    cases s with
    | static d vec => rfl
    | full d vec =>
      have hlen : vec.length = d := by simpa [SpamVec.valid] using hs
      simp [SpamVec.from_vector, SpamVec.to_vector, hlen]
    | tp d c vec =>
      have hv : vec.length = d ∧ vec.head? = some c := by
        simpa [SpamVec.valid] using hs
      have hlen : (vec.drop 1).length = d - 1 := by
        rw [List.length_drop, hv.1]
      rw [show (SpamVec.tp d c vec).from_vector ((SpamVec.tp d c vec).to_vector)
            = if (vec.drop 1).length = d - 1
              then .ok (.tp d c (vec.take 1 ++ vec.drop 1))
              else .error .DimensionMismatch from rfl,
        if_pos hlen, List.take_append_drop]
  refine ⟨h1, ?_, h2, ?_⟩
  · rw [h1]; rfl
  · rw [h2]; rfl

/-- Evaluation of C2 on the notebook's `tpOp` and a concrete full SPAM
vector. -/
theorem dense_from_vector_roundtrip_witness :
    tpOp.valid = true ∧ tpOp.isDense = true ∧
    (SpamVec.full 4 [1/2, 0, 0, 1/2]).valid = true ∧
    tpOp.from_vector tpOp.to_vector = .ok tpOp ∧
    (SpamVec.full 4 [1/2, 0, 0, 1/2]).from_vector
        (SpamVec.full 4 [1/2, 0, 0, 1/2]).to_vector
      = .ok (SpamVec.full 4 [1/2, 0, 0, 1/2]) := by
  have h := dense_from_vector_roundtrip tpOp (SpamVec.full 4 [1/2, 0, 0, 1/2])
    (by decide) (by decide) (by decide)
  exact ⟨by decide, by decide, by decide, h.1, h.2.2.1⟩

/-- C7 (as stated) is wrong about static objects: the spec's own §4.1/§7
assign `InvalidOperation`, not `DimensionMismatch`, to a nonempty
`from_vector` on a static operator, and the model does so at this input. -/
theorem from_vector_mismatch_counterexample :
    ([1] : List ℚ).length ≠ staticOp.num_params ∧
    staticOp.from_vector [1] = .error .InvalidOperation ∧
    Err.InvalidOperation ≠ Err.DimensionMismatch := by
  refine ⟨by decide, rfl, by decide⟩

/-- C7 (amended): `from_vector` on a vector whose length differs from
`num_params()` always fails synchronously, returning an error and leaving the
object in its prior state (in this pure model a failed call yields no new
state at all); the error is `DimensionMismatch`, except that an operator
whose parameters are ultimately held by a static object (a static operator,
possibly wrapped in embeddings) rejects its (necessarily nonempty) vector
with `InvalidOperation`. -/
theorem from_vector_length_mismatch_errs :
    (∀ (o : Op) (v : List ℚ), v.length ≠ o.num_params →
      o.from_vector v =
        .error (if o.isStaticCore then Err.InvalidOperation else Err.DimensionMismatch)) ∧
    (∀ (s : SpamVec) (v : List ℚ), v.length ≠ s.num_params →
      s.from_vector v =
        .error (if s.isStaticCore then Err.InvalidOperation else Err.DimensionMismatch)) ∧
    (∀ (p : TPPOVM) (v : List ℚ), v.length ≠ p.num_params →
      p.from_vector v = .error .DimensionMismatch) ∧
    (∀ (e : LindbladErrorgen) (v : List ℝ), v.length ≠ e.num_params →
      e.from_vector v = .error .DimensionMismatch) := by
  refine ⟨?_, ?_, ?_, ?_⟩
  · intro o
    induction o with
    | static d mx =>
      intro v h
      rw [Op.num_params] at h
      simp [Op.from_vector, Op.isStaticCore, h]
    | full d mx =>
      intro v h
      rw [Op.num_params] at h
      simp [Op.from_vector, Op.isStaticCore, h]
    | tp d mx =>
      intro v h
      rw [Op.num_params] at h
      simp [Op.from_vector, Op.isStaticCore, h]
    | embedded ss ts sub ih =>
      intro v h
      rw [Op.num_params] at h
      rw [Op.from_vector, ih v h]
      rfl
  · intro s v h
    cases s with
    | static d vec =>
      rw [SpamVec.num_params] at h
      simp [SpamVec.from_vector, SpamVec.isStaticCore, h]
    | full d vec =>
      rw [SpamVec.num_params] at h
      simp [SpamVec.from_vector, SpamVec.isStaticCore, h]
    | tp d c vec =>
      rw [SpamVec.num_params] at h
      simp [SpamVec.from_vector, SpamVec.isStaticCore, h]
  · intro p v h
    simp [TPPOVM.from_vector, h]
  · intro e v h
    simp [LindbladErrorgen.from_vector, h]

/-- Evaluation of C7 (amended) at concrete inputs: a full operator and the
TP POVM reject a too-short vector with `DimensionMismatch`. -/
theorem from_vector_length_mismatch_errs_witness :
    ([1, 2] : List ℚ).length ≠ fullOp.num_params ∧
    fullOp.from_vector [1, 2] = .error .DimensionMismatch ∧
    ([1, 2] : List ℚ).length ≠ (TPPOVM.mk 4 [2, 0, 0, 0] [[1, 1, 0, 0]]).num_params ∧
    (TPPOVM.mk 4 [2, 0, 0, 0] [[1, 1, 0, 0]]).from_vector [1, 2]
      = .error .DimensionMismatch := by
  refine ⟨by decide, from_vector_length_mismatch_errs.1 fullOp [1, 2] (by decide),
    by decide,
    from_vector_length_mismatch_errs.2.2.1 (TPPOVM.mk 4 [2, 0, 0, 0] [[1, 1, 0, 0]])
      [1, 2] (by decide)⟩

/-- C8: constructing a trace-preserving dense operator from a matrix whose
first row is not `[1, 0, ..., 0]` fails with `InvalidOperation`, as does the
in-place `set_matrix` update of an existing TP operator, and constructing a
TP SPAM vector from a vector whose first element differs from the required
fixed normalization value. -/
theorem tp_build_rejects_invalid_fixed_values :
    ∀ (d : Nat) (mx mx2 : List ℚ) (c : ℚ) (vec : List ℚ),
      (mx.take d ≠ unitFirstRow d → TPDenseOp.build d mx = .error .InvalidOperation) ∧
      (mx.take d ≠ unitFirstRow d →
        TPDenseOp.set_matrix (Op.tp d mx2) mx = .error .InvalidOperation) ∧
      (vec.head? ≠ some c → TPSPAMVec.build d c vec = .error .InvalidOperation) := by
  intro d mx mx2 c vec
  refine ⟨fun h => ?_, fun h => ?_, fun h => ?_⟩
  · simp [TPDenseOp.build, h]
  · simp [TPDenseOp.set_matrix, TPDenseOp.build, h]
  · simp [TPSPAMVec.build, h]

/-- Evaluation of C8 on the `ExplicitModel` notebook's `invalid_TP_array`
(first row `[2, 1, 3, 0]`) and a concrete SPAM vector. -/
theorem tp_build_rejects_invalid_fixed_values_witness :
    invalidTPArray.take 4 ≠ unitFirstRow 4 ∧
    TPDenseOp.build 4 invalidTPArray = .error .InvalidOperation ∧
    TPDenseOp.set_matrix tpOp invalidTPArray = .error .InvalidOperation ∧
    ([2, 0, 0, 0] : List ℚ).head? ≠ some 1 ∧
    TPSPAMVec.build 4 1 [2, 0, 0, 0] = .error .InvalidOperation := by
  have h := tp_build_rejects_invalid_fixed_values 4 invalidTPArray gateMx 1 [2, 0, 0, 0]
  exact ⟨by decide, h.1 (by decide), h.2.1 (by decide), by decide, h.2.2 (by decide)⟩

/-- C1: in `"cptp"` parameter mode with `nonham_mode = "all"`, the
non-Hamiltonian coefficient matrix `η = M * Mᴴ` determined by *any* parameter
state is positive semi-definite, and `from_vector` accepts every real vector
of length `num_params()`, yielding a generator whose `η` is again positive
semi-definite — no input vector can produce an invalid `η`. -/
theorem lindblad_cptp_eta_posSemidef :
    (∀ e : LindbladErrorgen, e.eta.PosSemidef) ∧
    (∀ (e : LindbladErrorgen) (v : List ℝ), v.length = e.num_params →
      e.from_vector v = .ok { basisSize := e.basisSize, params := v } ∧
      (LindbladErrorgen.mk e.basisSize v).eta.PosSemidef) := by
  constructor
  · intro e
    exact Matrix.posSemidef_self_mul_conjTranspose e.cholFactor
  · intro e v h
    refine ⟨?_, Matrix.posSemidef_self_mul_conjTranspose _⟩
    simp [LindbladErrorgen.from_vector, h]

/-- Evaluation of C1 at a concrete state and parameter vector. -/
theorem lindblad_cptp_eta_posSemidef_witness :
    (([0.5, -2] : List ℝ).length = (LindbladErrorgen.mk 1 [0, 0]).num_params) ∧
    (LindbladErrorgen.mk 1 [0, 0]).from_vector [0.5, -2] =
      .ok (LindbladErrorgen.mk 1 [0.5, -2]) ∧
    (LindbladErrorgen.mk 1 [0.5, -2]).eta.PosSemidef :=
  ⟨rfl, (lindblad_cptp_eta_posSemidef.2 (LindbladErrorgen.mk 1 [0, 0]) [0.5, -2] rfl).1,
    (lindblad_cptp_eta_posSemidef.2 (LindbladErrorgen.mk 1 [0, 0]) [0.5, -2] rfl).2⟩

/-- Membership is unchanged by first-occurrence deduplication. -/
theorem mem_firstDedup {a : PyLabel} {l : List PyLabel} :
    a ∈ firstDedup l ↔ a ∈ l := by
  induction l with
  | nil => simp [firstDedup]
  | cons x xs ih =>
    simp only [firstDedup, List.mem_cons, List.mem_filter, ih]
    by_cases hax : a = x
    · simp [hax]
    · simp [hax]

/-- `firstDedup` commutes with mapping an injective-on-the-list function. -/
theorem firstDedup_map (f : PyLabel → PyLabel) (l : List PyLabel)
    (hf : ∀ x ∈ l, ∀ y ∈ l, f x = f y → x = y) :
    firstDedup (l.map f) = (firstDedup l).map f := by
  induction l with
  | nil => rfl
  | cons a rest ih =>
    have hrest : ∀ x ∈ rest, ∀ y ∈ rest, f x = f y → x = y := fun x hx y hy =>
      hf x (List.mem_cons_of_mem a hx) y (List.mem_cons_of_mem a hy)
    show f a :: (firstDedup (rest.map f)).filter (· ≠ f a)
        = f a :: ((firstDedup rest).filter (· ≠ a)).map f
    rw [ih hrest, List.filter_map]
    refine congrArg (List.cons (f a)) (congrArg (List.map f) (List.filter_congr ?_))
    intro x hx
    have hxrest : x ∈ rest := mem_firstDedup.mp hx
    simp only [Function.comp_apply, ne_eq, decide_eq_decide]
    constructor
    · intro hne he
      exact hne (by rw [he])
    · intro hne he
      exact hne (hf x (List.mem_cons_of_mem a hxrest) a (List.mem_cons_self a rest) he)

/-- `indexOf` of a mapped element in a mapped list, when the function is
injective towards that element. -/
theorem indexOf_map_of_injOn (f : PyLabel → PyLabel) (l : List PyLabel)
    (a : PyLabel) :
    a ∈ l → (∀ x ∈ l, f x = f a → x = a) →
      (l.map f).indexOf (f a) = l.indexOf a := by
  induction l with
  | nil => intro h; cases h
  | cons b rest ih =>
    intro ha hf
    by_cases hb : b = a
    · subst hb
      rw [List.map_cons, List.indexOf_cons_self, List.indexOf_cons_self]
    · have hfb : f b ≠ f a := fun h => hb (hf b (List.mem_cons_self b rest) h)
      have harest : a ∈ rest := by
        cases List.mem_cons.mp ha with
        | inl h => exact absurd h.symm hb
        | inr h => exact h
      rw [List.map_cons, List.indexOf_cons_ne _ hfb, List.indexOf_cons_ne _ hb]
      exact congrArg Nat.succ
        (ih harest (fun x hx => hf x (List.mem_cons_of_mem b hx)))

/-- The canonical renaming of a coefficient dictionary's labels is injective
on the labels that actually occur. -/
theorem relabel_canon_injOn (ls : List PyLabel) :
    ∀ x ∈ ls, ∀ y ∈ ls,
      relabel (firstDedup ls) x = relabel (firstDedup ls) y → x = y := by
  intro x hx y hy h
  have hx' : x ∈ firstDedup ls := mem_firstDedup.mpr hx
  have hy' : y ∈ firstDedup ls := mem_firstDedup.mpr hy
  exact (List.indexOf_inj hx' hy').mp (PyLabel.int.inj h)

/-- Canonically renamed labels are fixed points of the renaming determined by
the renamed canonical list. -/
theorem relabel_map_self (ls : List PyLabel) (l : PyLabel) (hl : l ∈ ls) :
    relabel ((firstDedup ls).map (relabel (firstDedup ls)))
        (relabel (firstDedup ls) l)
      = relabel (firstDedup ls) l := by
  have hlc : l ∈ firstDedup ls := mem_firstDedup.mpr hl
  show PyLabel.int
      (((firstDedup ls).map (relabel (firstDedup ls))).indexOf
        (relabel (firstDedup ls) l))
    = relabel (firstDedup ls) l
  rw [indexOf_map_of_injOn (relabel (firstDedup ls)) (firstDedup ls) l hlc
    (fun x hx hfx =>
      relabel_canon_injOn ls x (mem_firstDedup.mp hx) l hl hfx)]
  rfl

/-- `basisLabels` after a renaming is the renaming of `basisLabels`. -/
theorem mapLabels_basisLabels (f : PyLabel → PyLabel) (k : ErrTermKey) :
    (k.mapLabels f).basisLabels = k.basisLabels.map f := by
  cases k <;> rfl

/-- A renaming that fixes all of a descriptor's labels fixes the
descriptor. -/
theorem mapLabels_id_of_fixed (f : PyLabel → PyLabel) (k : ErrTermKey)
    (h : ∀ l ∈ k.basisLabels, f l = l) : k.mapLabels f = k := by
  cases k with
  | H b => exact congrArg ErrTermKey.H (h b (by simp [ErrTermKey.basisLabels]))
  | S b1 b2 =>
    have h1 := h b1 (by simp [ErrTermKey.basisLabels])
    have h2 := h b2 (by simp [ErrTermKey.basisLabels])
    simp [ErrTermKey.mapLabels, h1, h2]
  | A b => exact congrArg ErrTermKey.A (h b (by simp [ErrTermKey.basisLabels]))

/-- The label stream of a renamed term dictionary is the renamed label
stream. -/
theorem termLabels_map (t : List (ErrTermKey × ℂ)) (f : PyLabel → PyLabel) :
    (((t.map (fun p => (p.fst.mapLabels f, p.snd))).map Prod.fst).flatMap
        ErrTermKey.basisLabels)
      = ((t.map Prod.fst).flatMap ErrTermKey.basisLabels).map f := by
  rw [List.map_map, List.map_flatMap]
  show (t.map (ErrTermKey.mapLabels f ∘ Prod.fst)).flatMap ErrTermKey.basisLabels
    = (t.map Prod.fst).flatMap fun k => k.basisLabels.map f
  rw [show ErrTermKey.mapLabels f ∘ Prod.fst
        = (ErrTermKey.mapLabels f) ∘ (Prod.fst : ErrTermKey × ℂ → ErrTermKey)
      from rfl]
  rw [← List.map_map, List.flatMap_map]
  exact congrArg _ (funext (mapLabels_basisLabels f))

/-- `find?` over a keyed `filterMap`-built association list: no hit when the
underlying table has no entry for the unique matching label. -/
theorem find?_keyed_filterMap_none {μ : Type} (c : List PyLabel)
    (h : PyLabel → Option μ) (f : PyLabel → PyLabel) (k : PyLabel) :
    (∀ l ∈ c, f l = f k → l = k) → h k = none →
      (c.filterMap (fun l => (h l).map (fun m => (f l, m)))).find?
        (fun q => q.fst = f k) = none := by
  induction c with
  | nil => intro _ _; rfl
  | cons a rest ih =>
    intro hinj hk
    have ihr := ih (fun l hl => hinj l (List.mem_cons_of_mem a hl)) hk
    cases hha : h a with
    | none => simpa [List.filterMap_cons, hha] using ihr
    | some m =>
      have hfa : f a ≠ f k := by
        intro hfe
        have : a = k := hinj a (List.mem_cons_self a rest) hfe
        rw [this, hk] at hha
        cases hha
      simp only [List.filterMap_cons, hha, Option.map_some']
      rw [List.find?_cons_of_neg _ (by simpa using hfa)]
      exact ihr

/-- `find?` over a keyed `filterMap`-built association list recovers exactly
the underlying table's entry for the unique matching label. -/
theorem find?_keyed_filterMap_mem {μ : Type} (c : List PyLabel)
    (h : PyLabel → Option μ) (f : PyLabel → PyLabel) (k : PyLabel) :
    k ∈ c → (∀ l ∈ c, f l = f k → l = k) →
      (c.filterMap (fun l => (h l).map (fun m => (f l, m)))).find?
        (fun q => q.fst = f k) = (h k).map (fun m => (f k, m)) := by
  cases hk : h k with
  | none =>
    intro hmem hinj
    simpa using find?_keyed_filterMap_none c h f k hinj hk
  | some mk =>
    induction c with
    | nil => intro hmem _; cases hmem
    | cons a rest ih =>
      intro hmem hinj
      cases hha : h a with
      | none =>
        have hak : a ≠ k := by
          intro he
          rw [he, hk] at hha
          cases hha
        have hrest : k ∈ rest := by
          cases List.mem_cons.mp hmem with
          | inl he => exact absurd he.symm hak
          | inr he => exact he
        rw [List.filterMap_cons, hha]
        exact ih hrest (fun l hl => hinj l (List.mem_cons_of_mem a hl))
      | some m =>
        by_cases hfa : f a = f k
        · have hak : a = k := hinj a (List.mem_cons_self a rest) hfa
          subst hak
          rw [hk] at hha
          cases hha
          simp only [List.filterMap_cons, hk, Option.map_some']
          rw [List.find?_cons_of_pos _ (by simp)]
        · have hak : a ≠ k := fun he => hfa (by rw [he])
          have hrest : k ∈ rest := by
            cases List.mem_cons.mp hmem with
            | inl he => exact absurd he.symm hak
            | inr he => exact he
          simp only [List.filterMap_cons, hha, Option.map_some']
          rw [List.find?_cons_of_neg _ (by simpa using hfa)]
          exact ih hrest (fun l hl => hinj l (List.mem_cons_of_mem a hl))

/-- `relabel_map_self`, phrased through `canonicalBasisLabels`. -/
theorem relabel_canon_map_self (t : List (ErrTermKey × ℂ)) (l : PyLabel)
    (hl : l ∈ (t.map Prod.fst).flatMap ErrTermKey.basisLabels) :
    relabel ((canonicalBasisLabels t).map (relabel (canonicalBasisLabels t)))
        (relabel (canonicalBasisLabels t) l)
      = relabel (canonicalBasisLabels t) l :=
  relabel_map_self _ l hl

/-- C5 (as stated) fails: `get_coeffs` does not return the same
error-term-descriptor entries for the notebook input — the basis labels are
canonically renumbered, so the keys come back as `('H', 0)`/`('S', 0, 0)`
rather than `('H', 'X')`/`('S', 'X', 'X')` (the recorded output of
`Operators.ipynb` cell 19). -/
theorem get_coeffs_relabeled_counterexample :
    (getCoeffs exampleCoeffs).1 ≠ exampleLtermdict := by
  intro h
  have h2 := congrArg (List.map Prod.fst) h
  have hL : (getCoeffs exampleCoeffs).1.map Prod.fst
      = [ErrTermKey.H (.int 0), ErrTermKey.S (.int 0) (.int 0)] := rfl
  have hR : exampleLtermdict.map Prod.fst
      = [ErrTermKey.H (.str "X"), ErrTermKey.S (.str "X") (.str "X")] := rfl
  rw [hL, hR] at h2
  exact absurd h2 (by decide)

/-- Reconstructing an error generator from `get_coeffs`' output and reading
the coefficients back is the identity: `get_coeffs`' canonical form is a
fixed point of construction. -/
theorem construct_getCoeffs_idempotent {μ : Type} (t : List (ErrTermKey × ℂ))
    (b : List (PyLabel × μ)) :
    constructFromCoeffDict (getCoeffs (constructFromCoeffDict t b)).1
        (getCoeffs (constructFromCoeffDict t b)).2
      = constructFromCoeffDict t b := by
  have hmemls : ∀ l ∈ canonicalBasisLabels t,
      l ∈ (t.map Prod.fst).flatMap ErrTermKey.basisLabels :=
    fun l hl => mem_firstDedup.mp hl
  have hc2 : canonicalBasisLabels
        (t.map (fun p => (p.fst.mapLabels (relabel (canonicalBasisLabels t)), p.snd)))
      = (canonicalBasisLabels t).map (relabel (canonicalBasisLabels t)) := by
    show firstDedup
        (((t.map (fun p => (p.fst.mapLabels (relabel (canonicalBasisLabels t)), p.snd))).map
            Prod.fst).flatMap ErrTermKey.basisLabels)
      = (canonicalBasisLabels t).map (relabel (canonicalBasisLabels t))
    rw [termLabels_map]
    exact firstDedup_map _ _ (relabel_canon_injOn _)
  simp only [constructFromCoeffDict, getCoeffs, LindbladCoeffs.mk.injEq]
  rw [hc2]
  constructor
  · -- the renamed term dictionary is fixed by the second renaming
    rw [List.map_map]
    apply List.map_congr_left
    intro p hp
    show ((p.fst.mapLabels (relabel (canonicalBasisLabels t))).mapLabels
          (relabel ((canonicalBasisLabels t).map (relabel (canonicalBasisLabels t)))),
        p.snd)
      = (p.fst.mapLabels (relabel (canonicalBasisLabels t)), p.snd)
    congr 1
    apply mapLabels_id_of_fixed
    intro l hl
    rw [mapLabels_basisLabels] at hl
    obtain ⟨l0, hl0, rfl⟩ := List.mem_map.mp hl
    apply relabel_map_self
    exact List.mem_flatMap.mpr ⟨p.fst, List.mem_map_of_mem Prod.fst hp, hl0⟩
  · -- the canonicalized basis table is fixed by the second pass
    rw [List.filterMap_map]
    apply List.filterMap_congr
    intro l hl
    have hlls : l ∈ (t.map Prod.fst).flatMap ErrTermKey.basisLabels := hmemls l hl
    have hinj : ∀ l' ∈ canonicalBasisLabels t,
        relabel (canonicalBasisLabels t) l' = relabel (canonicalBasisLabels t) l →
          l' = l :=
      fun l' hl' he => relabel_canon_injOn _ l' (hmemls l' hl') l hlls he
    have hfind :
        ((canonicalBasisLabels t).filterMap (fun l' =>
            ((b.find? (fun q => q.fst = l')).map Prod.snd).map
              (fun m => (relabel (canonicalBasisLabels t) l', m)))).find?
          (fun q => q.fst = relabel (canonicalBasisLabels t) l)
        = ((b.find? (fun q => q.fst = l)).map Prod.snd).map
            (fun m => (relabel (canonicalBasisLabels t) l, m)) :=
      find?_keyed_filterMap_mem (canonicalBasisLabels t)
        (fun l' => (b.find? (fun q => q.fst = l')).map Prod.snd)
        (relabel (canonicalBasisLabels t)) l hl hinj
    show Option.map
          (fun m =>
            (relabel ((canonicalBasisLabels t).map (relabel (canonicalBasisLabels t)))
                (relabel (canonicalBasisLabels t) l), m))
          (Option.map Prod.snd
            (((canonicalBasisLabels t).filterMap (fun l' =>
                ((b.find? (fun q => q.fst = l')).map Prod.snd).map
                  (fun m => (relabel (canonicalBasisLabels t) l', m)))).find?
              (fun q => q.fst = relabel (canonicalBasisLabels t) l)))
      = Option.map (fun m => (relabel (canonicalBasisLabels t) l, m))
          (Option.map Prod.snd (b.find? (fun q => q.fst = l)))
    rw [hfind]
    cases hb : b.find? (fun q => q.fst = l) with
    | none => rfl
    | some qm =>
      simp only [Option.map_some']
      rw [relabel_canon_map_self t l hlls]

/-- C5 (amended): `get_coeffs` is a left inverse of construction *up to
canonical relabeling*: it returns the same coefficient values with every
basis label replaced by its canonical integer index (order of first
appearance) and the basis dictionary re-keyed accordingly — for the notebook
input `{('H','X'): 0.1, ('S','X','X'): 0.1}` with basis `{'X': X/√2}` it
returns `{('H',0): 0.1, ('S',0,0): 0.1}` with basis `{0: X/√2}`; and on
already-canonical dictionaries (in particular on any output of `get_coeffs`)
the round trip is exact. -/
theorem get_coeffs_canonical_roundtrip :
    ((getCoeffs exampleCoeffs).1 =
        [(.H (.int 0), (0.1 : ℂ)), (.S (.int 0) (.int 0), (0.1 : ℂ))] ∧
      (getCoeffs exampleCoeffs).2 = [(.int 0, sigmax)]) ∧
    (∀ (μ : Type) (t : List (ErrTermKey × ℂ)) (b : List (PyLabel × μ)),
      (getCoeffs (constructFromCoeffDict t b)).1.map Prod.snd = t.map Prod.snd) ∧
    (∀ (μ : Type) (t : List (ErrTermKey × ℂ)) (b : List (PyLabel × μ)),
      constructFromCoeffDict (getCoeffs (constructFromCoeffDict t b)).1
          (getCoeffs (constructFromCoeffDict t b)).2
        = constructFromCoeffDict t b) := by
  refine ⟨⟨rfl, rfl⟩, ?_, ?_⟩
  · intro μ t b
    simp [getCoeffs, constructFromCoeffDict, List.map_map, Function.comp]
  · intro μ t b
    exact construct_getCoeffs_idempotent t b

end PyGSTi
